import Mathlib

/-!
Verification of the cloudwatchlogs-agent core against its specification.

The Go sources are shallowly embedded:
* bytes are `Nat` (byte values; 10 is the line feed, 13 the carriage return),
* byte slices are `List Nat`,
* the mutable fields of a Go struct become a Lean structure threaded
  through each operation,
* a Go `error` return becomes an `Option` of an error enumeration.

All definitions follow the source (`scannerwriter.go`, `logger.go`,
`trier.go`, `ratelimiter.go`); the only near-spec definitions are the
reference decompositions used to compare against the tokenizer's output,
and they are named as such.
-/

set_option autoImplicit false

namespace CWAgent

/-! ## bufio.ScanLines

`ScanLines(data, atEOF)` looks for the first line feed. `dropCR` drops a
terminal carriage return from a line. `splitLine` embeds the
`bytes.IndexByte(data, 10)` search together with the slicing done by
`ScanLines`: `splitLine data = some (tok, rem)` exactly when
`data = tok ++ 10 :: rem` and `tok` is line-feed free, i.e. `tok` is
`data[0:i]` and `rem` is `data[i+1:]` for `i` the first index of a line
feed; `none` when `data` has no line feed. -/

/-- `dropCR` from `bufio`: drop a terminal carriage return (byte 13). -/
def dropCR (data : List Nat) : List Nat :=
  if data ≠ [] ∧ data.getLast? = some 13 then data.dropLast else data

/-- First-line-feed split of a byte slice (see module comment). -/
def splitLine : List Nat → Option (List Nat × List Nat)
  | [] => none
  | b :: rest =>
    if b = 10 then some ([], rest)
    else
      match splitLine rest with
      | some (tok, rem) => some (b :: tok, rem)
      | none => none

theorem splitLine_rem_length : ∀ (l tok rem : List Nat),
    splitLine l = some (tok, rem) → rem.length < l.length := by
  intro l
  induction l with
  | nil => intro tok rem h; simp [splitLine] at h
  | cons b rest ih =>
    intro tok rem h
    simp only [splitLine] at h
    by_cases hb : b = 10
    · rw [if_pos hb] at h
      injection h with h
      cases h
      simp
    · rw [if_neg hb] at h
      cases hs : splitLine rest with
      | none => rw [hs] at h; cases h
      | some p =>
        obtain ⟨t, r⟩ := p
        rw [hs] at h
        injection h with h
        cases h
        have := ih t rem hs
        simp
        omega

theorem splitLine_shape : ∀ (l tok rem : List Nat),
    splitLine l = some (tok, rem) → l = tok ++ 10 :: rem := by
  intro l
  induction l with
  | nil => intro tok rem h; simp [splitLine] at h
  | cons b rest ih =>
    intro tok rem h
    simp only [splitLine] at h
    by_cases hb : b = 10
    · rw [if_pos hb] at h
      injection h with h
      cases h
      subst hb
      simp
    · rw [if_neg hb] at h
      cases hs : splitLine rest with
      | none => rw [hs] at h; cases h
      | some p =>
        obtain ⟨t, r⟩ := p
        rw [hs] at h
        injection h with h
        cases h
        have hr := ih t rem hs
        rw [hr]
        simp

theorem splitLine_append_some (l₁ l₂ : List Nat) : ∀ (tok rem : List Nat),
    splitLine l₁ = some (tok, rem) →
    splitLine (l₁ ++ l₂) = some (tok, rem ++ l₂) := by
  induction l₁ with
  | nil => intro tok rem h; simp [splitLine] at h
  | cons b rest ih =>
    intro tok rem h
    simp only [splitLine] at h
    rw [List.cons_append]
    simp only [splitLine]
    by_cases hb : b = 10
    · rw [if_pos hb] at h ⊢
      injection h with h
      cases h
      rfl
    · rw [if_neg hb] at h ⊢
      cases hs : splitLine rest with
      | none => rw [hs] at h; cases h
      | some p =>
        obtain ⟨t, r⟩ := p
        rw [hs] at h
        injection h with h
        cases h
        rw [ih t rem hs]

/-- Repeatedly strip complete lines: all tokens the scanner emits during
writes, and the line-feed-free unterminated remainder. -/
def splitAll (l : List Nat) : List (List Nat) × List Nat :=
  match hs : splitLine l with
  | some (tok, rem) =>
    let p := splitAll rem
    (dropCR tok :: p.1, p.2)
  | none => ([], l)
termination_by l.length
decreasing_by exact splitLine_rem_length l tok rem hs

theorem splitAll_of_splitLine_none (l : List Nat) (h : splitLine l = none) :
    splitAll l = ([], l) := by
  rw [splitAll.eq_def]
  split
  · rename_i tok rem hs
    rw [h] at hs; cases hs
  · rfl

theorem splitAll_of_splitLine_some (l tok rem : List Nat)
    (h : splitLine l = some (tok, rem)) :
    splitAll l = (dropCR tok :: (splitAll rem).1, (splitAll rem).2) := by
  rw [splitAll.eq_def]
  split
  · rename_i tok' rem' hs
    rw [h] at hs
    injection hs with hs
    cases hs
    rfl
  · rename_i hs
    rw [h] at hs; cases hs

theorem splitAll_nil : splitAll [] = ([], []) :=
  splitAll_of_splitLine_none [] rfl

/-- The remainder left by `splitAll` has no line feed. -/
theorem splitLine_splitAll_rem : ∀ (n : Nat) (l : List Nat), l.length ≤ n →
    splitLine (splitAll l).2 = none := by
  intro n
  induction n with
  | zero =>
    intro l hl
    have hnil : l = [] := List.length_eq_zero.mp (Nat.le_zero.mp hl)
    subst hnil
    rw [splitAll_nil]
    rfl
  | succ n ih =>
    intro l hl
    cases hs : splitLine l with
    | none => rw [splitAll_of_splitLine_none l hs]; exact hs
    | some p =>
      obtain ⟨tok, rem⟩ := p
      rw [splitAll_of_splitLine_some l tok rem hs]
      exact ih rem (by have := splitLine_rem_length l tok rem hs; omega)

/-- `splitAll` distributes over append through the remainder. -/
theorem splitAll_append : ∀ (n : Nat) (l₁ l₂ : List Nat), l₁.length ≤ n →
    splitAll (l₁ ++ l₂) =
      ((splitAll l₁).1 ++ (splitAll ((splitAll l₁).2 ++ l₂)).1,
       (splitAll ((splitAll l₁).2 ++ l₂)).2) := by
  intro n
  induction n with
  | zero =>
    intro l₁ l₂ hl
    have hnil : l₁ = [] := List.length_eq_zero.mp (Nat.le_zero.mp hl)
    subst hnil
    simp [splitAll_nil]
  | succ n ih =>
    intro l₁ l₂ hl
    cases hs : splitLine l₁ with
    | none =>
      rw [splitAll_of_splitLine_none l₁ hs]
      simp
    | some p =>
      obtain ⟨tok, rem⟩ := p
      rw [splitAll_of_splitLine_some l₁ tok rem hs,
        splitAll_of_splitLine_some (l₁ ++ l₂) tok (rem ++ l₂)
          (splitLine_append_some l₁ l₂ tok rem hs),
        ih rem l₂ (by have := splitLine_rem_length l₁ tok rem hs; omega)]
      simp

/-! ## ScannerWriter

`ScannerWriter` (scannerwriter.go) holds an unterminated backlog `buf`
(Go `nil` is modelled as `[]`; the code only ever stores a non-empty
backlog), a `closed` flag, a size cap `max_buf`, and the two callbacks.
In this repository `splitFunc` is always `bufio.ScanLines` (see
`NewLogger`), so `Write`, `flush` and `Close` are embedded with that
split function inlined via `splitLine`/`dropCR` above.

The token handler `tokenFunc` may carry state (the Logger's handler
enqueues into a channel) and may fail, so it is modelled as
`σ → List Nat → σ × Bool`, `false` meaning it returned a non-nil error
(`.handlerErr` stands for whatever error the handler returned). -/

structure SWState where
  buf : List Nat
  closed : Bool
deriving Repr, DecidableEq

inductive WErr where
  /-- `WriterClosedError` -/
  | writerClosed
  /-- `ExceededBufferSizeLimitError` -/
  | bufferOverflow
  /-- the (non-nil) error returned by `tokenFunc` -/
  | handlerErr
deriving Repr, DecidableEq

/-- Result of `ScannerWriter.Write`: handler state, writer state, the
tokens passed to `tokenFunc` in order, and the `(int, error)` pair Go
returns. -/
structure WriteOut (σ : Type) where
  hs : σ
  sw : SWState
  toks : List (List Nat)
  count : Nat
  err : Option WErr
deriving Repr, DecidableEq

/-- The `for len(data) > 0` loop of `ScannerWriter.Write`, with
`splitFunc = bufio.ScanLines` and `atEOF = false`:
`ScanLines(data, false)` is `(i+1, dropCR data[:i])` when the first line
feed sits at index `i` (the `splitLine data = some _` case) and
`(0, nil)` when there is none (the `none` case, where `Write` buffers
`data` unless that would exceed `max_buf`; note `sc.buf` is already nil
inside the loop, so the overflow test compares `len(data)` alone). -/
def swWriteAux {σ : Type} (h : σ → List Nat → σ × Bool) (maxBuf dataLen : Nat)
    (st : σ) (data : List Nat) (acc : List (List Nat)) : WriteOut σ :=
  if data = [] then ⟨st, ⟨[], false⟩, acc, dataLen, none⟩
  else
    match hsp : splitLine data with
    | none =>
      if maxBuf < data.length then ⟨st, ⟨[], false⟩, acc, 0, some .bufferOverflow⟩
      else ⟨st, ⟨data, false⟩, acc, dataLen, none⟩
    | some (tok, rem) =>
      let t := dropCR tok
      let hr := h st t
      if hr.2 then swWriteAux h maxBuf dataLen hr.1 rem (acc ++ [t])
      else ⟨hr.1, ⟨[], false⟩, acc ++ [t], 0, some .handlerErr⟩
termination_by data.length
decreasing_by exact splitLine_rem_length data tok rem hsp

/-- `ScannerWriter.Write`: fail when closed, else prepend the backlog
(clearing it) and run the scan loop. -/
def swWrite {σ : Type} (h : σ → List Nat → σ × Bool) (maxBuf : Nat)
    (sw : SWState) (st : σ) (data : List Nat) : WriteOut σ :=
  if sw.closed then ⟨st, sw, [], 0, some .writerClosed⟩
  else swWriteAux h maxBuf data.length st (sw.buf ++ data) []

/-- Result of `ScannerWriter.flush` / `Close`. -/
structure OpOut (σ : Type) where
  hs : σ
  sw : SWState
  toks : List (List Nat)
  err : Option WErr
deriving Repr, DecidableEq

/-- The token `bufio.ScanLines(buf, true)` yields for a non-empty `buf`:
the first line if one is terminated, else `dropCR buf` (the final
non-terminated line). -/
def scanFinalToken (buf : List Nat) : List Nat :=
  match splitLine buf with
  | some (tok, _) => dropCR tok
  | none => dropCR buf

/-- `ScannerWriter.flush` (the unexported one; `Flush` merely takes the
lock first): error when closed; no-op on an empty backlog; otherwise run
the split function at EOF once and emit the token when non-empty. On a
handler error the backlog is NOT cleared (the early return skips
`sc.buf = nil`). `ScanLines` never returns an error, so the `io.EOF`
branch is unreachable. -/
def swFlushRun {σ : Type} (h : σ → List Nat → σ × Bool) (sw : SWState)
    (st : σ) : OpOut σ :=
  if sw.closed then ⟨st, sw, [], some .writerClosed⟩
  else if sw.buf = [] then ⟨st, ⟨[], false⟩, [], none⟩
  else
    let t := scanFinalToken sw.buf
    if t = [] then ⟨st, ⟨[], false⟩, [], none⟩
    else
      let hr := h st t
      if hr.2 then ⟨hr.1, ⟨[], false⟩, [t], none⟩
      else ⟨hr.1, sw, [t], some .handlerErr⟩

/-- `ScannerWriter.Close`: error when already closed; otherwise flush,
and only on a successful flush set `closed` (and nil the buffer and the
callbacks). A failed flush leaves the writer open. -/
def swClose {σ : Type} (h : σ → List Nat → σ × Bool) (sw : SWState)
    (st : σ) : OpOut σ :=
  if sw.closed then ⟨st, sw, [], some .writerClosed⟩
  else
    let f := swFlushRun h sw st
    match f.err with
    | none => ⟨f.hs, ⟨[], true⟩, f.toks, none⟩
    | some e => ⟨f.hs, f.sw, f.toks, some e⟩

/-- The trivial always-succeeding stateless handler, used to state
claims that assume the handler does not fail. -/
def hOk : Unit → List Nat → Unit × Bool := fun _ _ => ((), true)

/-! ### Unfolding lemmas for the write loop -/

theorem swWriteAux_nil {σ : Type} (h : σ → List Nat → σ × Bool)
    (maxBuf dataLen : Nat) (st : σ) (acc : List (List Nat)) :
    swWriteAux h maxBuf dataLen st [] acc = ⟨st, ⟨[], false⟩, acc, dataLen, none⟩ := by
  rw [swWriteAux.eq_def]
  rfl

theorem swWriteAux_of_none {σ : Type} (h : σ → List Nat → σ × Bool)
    (maxBuf dataLen : Nat) (st : σ) (data : List Nat) (acc : List (List Nat))
    (hd : data ≠ []) (hs : splitLine data = none) :
    swWriteAux h maxBuf dataLen st data acc =
      if maxBuf < data.length then ⟨st, ⟨[], false⟩, acc, 0, some .bufferOverflow⟩
      else ⟨st, ⟨data, false⟩, acc, dataLen, none⟩ := by
  rw [swWriteAux.eq_def, if_neg hd]
  split
  · rfl
  · rename_i heq
    rw [hs] at heq
    cases heq

theorem swWriteAux_of_some {σ : Type} (h : σ → List Nat → σ × Bool)
    (maxBuf dataLen : Nat) (st : σ) (data tok rem : List Nat)
    (acc : List (List Nat)) (hd : data ≠ []) (hs : splitLine data = some (tok, rem)) :
    swWriteAux h maxBuf dataLen st data acc =
      if (h st (dropCR tok)).2 then
        swWriteAux h maxBuf dataLen (h st (dropCR tok)).1 rem (acc ++ [dropCR tok])
      else ⟨(h st (dropCR tok)).1, ⟨[], false⟩, acc ++ [dropCR tok], 0, some .handlerErr⟩ := by
  rw [swWriteAux.eq_def, if_neg hd]
  split
  · rename_i heq
    rw [hs] at heq
    cases heq
  · rename_i heq
    rw [hs] at heq
    injection heq with heq
    cases heq
    rfl

/-- Return-value invariants of the write loop, for an arbitrary handler:
the returned count is the full input length on success and 0 on error;
a buffer-overflow return has already cleared the backlog; the loop never
closes the writer; a successful return leaves a backlog within the cap. -/
theorem swWriteAux_invariants : ∀ (n : Nat) {σ : Type}
    (h : σ → List Nat → σ × Bool) (maxBuf dataLen : Nat) (st : σ)
    (data : List Nat) (acc : List (List Nat)), data.length ≤ n →
    ((swWriteAux h maxBuf dataLen st data acc).err = none →
      (swWriteAux h maxBuf dataLen st data acc).count = dataLen) ∧
    ((swWriteAux h maxBuf dataLen st data acc).err ≠ none →
      (swWriteAux h maxBuf dataLen st data acc).count = 0) ∧
    ((swWriteAux h maxBuf dataLen st data acc).err = some .bufferOverflow →
      (swWriteAux h maxBuf dataLen st data acc).sw = ⟨[], false⟩) ∧
    (swWriteAux h maxBuf dataLen st data acc).sw.closed = false ∧
    ((swWriteAux h maxBuf dataLen st data acc).err = none →
      (swWriteAux h maxBuf dataLen st data acc).sw.buf.length ≤ maxBuf) ∧
    ((swWriteAux h maxBuf dataLen st data acc).err ≠ some .writerClosed) := by
  intro n
  induction n with
  | zero =>
    intro σ h maxBuf dataLen st data acc hl
    have hnil : data = [] := List.length_eq_zero.mp (Nat.le_zero.mp hl)
    subst hnil
    simp [swWriteAux_nil]
  | succ n ih =>
    intro σ h maxBuf dataLen st data acc hl
    by_cases hd : data = []
    · subst hd
      simp [swWriteAux_nil]
    · cases hs : splitLine data with
      | none =>
        rw [swWriteAux_of_none h maxBuf dataLen st data acc hd hs]
        by_cases hov : maxBuf < data.length
        · simp [if_pos hov]
        · simp [if_neg hov]
          omega
      | some p =>
        obtain ⟨tok, rem⟩ := p
        rw [swWriteAux_of_some h maxBuf dataLen st data tok rem acc hd hs]
        by_cases hh : (h st (dropCR tok)).2
        · rw [if_pos hh]
          exact ih h maxBuf dataLen (h st (dropCR tok)).1 rem (acc ++ [dropCR tok])
            (by have := splitLine_rem_length data tok rem hs; omega)
        · simp [if_neg hh]

/-- Full characterisation of the write loop under a never-failing
handler: the loop emits exactly the tokens of the complete lines of
`data` and keeps the unterminated remainder, unless that remainder
exceeds the cap, in which case it fails with `bufferOverflow` (having
still emitted the tokens and cleared the backlog). -/
theorem swWriteAux_hOk : ∀ (n : Nat) (data : List Nat), data.length ≤ n →
    ∀ (maxBuf dataLen : Nat) (acc : List (List Nat)),
    swWriteAux hOk maxBuf dataLen () data acc =
      if (splitAll data).2.length ≤ maxBuf
      then ⟨(), ⟨(splitAll data).2, false⟩, acc ++ (splitAll data).1, dataLen, none⟩
      else ⟨(), ⟨[], false⟩, acc ++ (splitAll data).1, 0, some .bufferOverflow⟩ := by
  intro n
  induction n with
  | zero =>
    intro data hl maxBuf dataLen acc
    have hnil : data = [] := List.length_eq_zero.mp (Nat.le_zero.mp hl)
    subst hnil
    simp [swWriteAux_nil, splitAll_nil]
  | succ n ih =>
    intro data hl maxBuf dataLen acc
    by_cases hd : data = []
    · subst hd
      simp [swWriteAux_nil, splitAll_nil]
    · cases hs : splitLine data with
      | none =>
        rw [swWriteAux_of_none hOk maxBuf dataLen () data acc hd hs,
          splitAll_of_splitLine_none data hs]
        by_cases hov : maxBuf < data.length
        · rw [if_pos hov, if_neg (by simpa using hov)]
          simp
        · rw [if_neg hov, if_pos (by simpa using Nat.not_lt.mp hov)]
          simp
      | some p =>
        obtain ⟨tok, rem⟩ := p
        rw [swWriteAux_of_some hOk maxBuf dataLen () data tok rem acc hd hs,
          splitAll_of_splitLine_some data tok rem hs]
        show swWriteAux hOk maxBuf dataLen () rem (acc ++ [dropCR tok]) = _
        rw [ih rem (by have := splitLine_rem_length data tok rem hs; omega)
          maxBuf dataLen (acc ++ [dropCR tok])]
        by_cases hr : (splitAll rem).2.length ≤ maxBuf
        · rw [if_pos hr, if_pos hr]
          simp
        · rw [if_neg hr, if_neg hr]
          simp

/-! ## Write sequences and line decompositions (claim C3) -/

/-- A sequence of `Write` calls with the never-failing handler, as a
caller such as `io.Copy` would issue them; stops at the first error. -/
def runWrites (maxBuf : Nat) : SWState → List (List Nat) → SWState × List (List Nat) × Option WErr
  | sw, [] => (sw, [], none)
  | sw, c :: cs =>
    let o := swWrite hOk maxBuf sw () c
    match o.err with
    | some e => (o.sw, o.toks, some e)
    | none =>
      let r := runWrites maxBuf o.sw cs
      (r.1, o.toks ++ r.2.1, r.2.2)

/-- Modelled from the spec: the line-delimited decomposition of the full
input — exactly the token sequence `bufio.Scanner` with `ScanLines`
produces on it: every terminated line (sans CR), plus the final
unterminated line (sans CR) when the input does not end at a line feed,
even when that final token is empty (input ending in a bare CR). -/
def lineDecomp (l : List Nat) : List (List Nat) :=
  (splitAll l).1 ++ (if (splitAll l).2 = [] then [] else [dropCR (splitAll l).2])

/-- What the ScannerWriter actually emits for the full input: as
`lineDecomp`, except that `flush` drops a final token that is empty
after CR-stripping (its `len(token) > 0` guard). -/
def emittedDecomp (l : List Nat) : List (List Nat) :=
  (splitAll l).1 ++
    (if dropCR (splitAll l).2 = [] then [] else [dropCR (splitAll l).2])

/-- `flush` on an open writer whose backlog has no line feed, with the
never-failing handler: emits the CR-stripped backlog when non-empty. -/
theorem swFlushRun_hOk_open (B : List Nat) (hB : splitLine B = none) :
    swFlushRun hOk ⟨B, false⟩ () =
      ⟨(), ⟨[], false⟩, if dropCR B = [] then [] else [dropCR B], none⟩ := by
  by_cases hnil : B = []
  · subst hnil
    rfl
  · have hscan : scanFinalToken B = dropCR B := by
      rw [scanFinalToken, hB]
    rw [swFlushRun]
    simp only [if_neg hnil]
    rw [hscan]
    by_cases hdc : dropCR B = []
    · simp [hdc]
    · simp [hdc, hOk]

/-- `swWrite` on an open writer unfolds to the scan loop. -/
theorem swWrite_open {σ : Type} (h : σ → List Nat → σ × Bool) (maxBuf : Nat)
    (B data : List Nat) (st : σ) :
    swWrite h maxBuf ⟨B, false⟩ st data =
      swWriteAux h maxBuf data.length st (B ++ data) [] := rfl

/-- `swWrite` on a closed writer fails without touching anything. -/
theorem swWrite_closed {σ : Type} (h : σ → List Nat → σ × Bool) (maxBuf : Nat)
    (B data : List Nat) (st : σ) :
    swWrite h maxBuf ⟨B, true⟩ st data = ⟨st, ⟨B, true⟩, [], 0, some .writerClosed⟩ := rfl

/-- Error-free write sequences under the never-failing handler: the
final backlog is the unterminated remainder of the concatenation, and
the emitted tokens are its complete lines. -/
theorem runWrites_ok : ∀ (chunks : List (List Nat)) (maxBuf : Nat) (B : List Nat),
    splitLine B = none →
    ∀ sw TS, runWrites maxBuf ⟨B, false⟩ chunks = (sw, TS, none) →
      sw = ⟨(splitAll (B ++ chunks.flatten)).2, false⟩ ∧
      TS = (splitAll (B ++ chunks.flatten)).1 := by
  intro chunks
  induction chunks with
  | nil =>
    intro maxBuf B hB sw TS hrun
    simp only [runWrites] at hrun
    injection hrun with h1 h2
    injection h2 with h2 h3
    rw [← h1, ← h2]
    simp [splitAll_of_splitLine_none B hB]
  | cons c cs ih =>
    intro maxBuf B hB sw TS hrun
    have hw : swWrite hOk maxBuf ⟨B, false⟩ () c =
        swWriteAux hOk maxBuf c.length () (B ++ c) [] := rfl
    simp only [runWrites, hw,
      swWriteAux_hOk (B ++ c).length (B ++ c) le_rfl maxBuf c.length []] at hrun
    by_cases hfit : (splitAll (B ++ c)).2.length ≤ maxBuf
    · rw [if_pos hfit] at hrun
      rcases hR : runWrites maxBuf ⟨(splitAll (B ++ c)).2, false⟩ cs with ⟨sw2, TS2, e2⟩
      simp only [hR, List.nil_append] at hrun
      injection hrun with h1 h2
      injection h2 with h2 h3
      subst h3
      obtain ⟨hsw2, hTS2⟩ :=
        ih maxBuf (splitAll (B ++ c)).2
          (splitLine_splitAll_rem (B ++ c).length (B ++ c) le_rfl) sw2 TS2 hR
      have hassoc : B ++ (c :: cs).flatten = (B ++ c) ++ cs.flatten := by
        simp
      rw [← h1, ← h2, hsw2, hTS2, hassoc,
        splitAll_append (B ++ c).length (B ++ c) cs.flatten le_rfl]
      exact ⟨rfl, rfl⟩
    · rw [if_neg hfit] at hrun
      simp at hrun

/-! ## Claim C9: Write's return count -/

/-- C9: for every `ScannerWriter.Write` call — any handler, any writer
state, any input — a call that returns no error returns the full input
length (bytes merely buffered included), and a call that returns an
error returns count 0 (even when tokens from this input were already
handed to the handler before the error). -/
theorem write_count_semantics {σ : Type} (h : σ → List Nat → σ × Bool)
    (maxBuf : Nat) (sw : SWState) (st : σ) (data : List Nat) :
    (swWrite h maxBuf sw st data).count =
      if (swWrite h maxBuf sw st data).err = none then data.length else 0 := by
  obtain ⟨B, c⟩ := sw
  cases c
  · rw [swWrite_open]
    obtain ⟨i1, i2, -⟩ :=
      swWriteAux_invariants (B ++ data).length h maxBuf data.length st (B ++ data) [] le_rfl
    by_cases he : (swWriteAux h maxBuf data.length st (B ++ data) []).err = none
    · rw [if_pos he]
      exact i1 he
    · rw [if_neg he]
      exact i2 he
  · rw [swWrite_closed]
    rfl

/-! ## Claim C10: BufferOverflow discards the backlog -/

/-- C10: when `Write` returns `ExceededBufferSizeLimitError`, the
backlog has already been cleared (`sc.buf` was nil-ed before the loop
and is not restored on this path): the writer is left open with an empty
backlog, and a subsequent `Flush` emits nothing and succeeds. -/
theorem write_overflow_clears_backlog {σ : Type} (h : σ → List Nat → σ × Bool)
    (maxBuf : Nat) (sw : SWState) (st : σ) (data : List Nat)
    (hov : (swWrite h maxBuf sw st data).err = some .bufferOverflow) :
    (swWrite h maxBuf sw st data).sw = ⟨[], false⟩ ∧
    ∀ (σ₂ : Type) (h₂ : σ₂ → List Nat → σ₂ × Bool) (st₂ : σ₂),
      swFlushRun h₂ (swWrite h maxBuf sw st data).sw st₂ = ⟨st₂, ⟨[], false⟩, [], none⟩ := by
  obtain ⟨B, c⟩ := sw
  cases c
  · rw [swWrite_open] at hov ⊢
    obtain ⟨-, -, i3, -⟩ :=
      swWriteAux_invariants (B ++ data).length h maxBuf data.length st (B ++ data) [] le_rfl
    have hsw := i3 hov
    rw [hsw]
    exact ⟨rfl, fun σ₂ h₂ st₂ => rfl⟩
  · rw [swWrite_closed] at hov
    injection hov with hov
    cases hov

/-- Witness for C10 at a concrete overflow: cap 2, backlog `[97]`,
write `[98, 99]` (no line feed anywhere). -/
theorem write_overflow_clears_backlog_witness :
    (swWrite hOk 2 ⟨[97], false⟩ () [98, 99]).err = some .bufferOverflow ∧
    (swWrite hOk 2 ⟨[97], false⟩ () [98, 99]).sw = ⟨[], false⟩ ∧
    swFlushRun hOk (swWrite hOk 2 ⟨[97], false⟩ () [98, 99]).sw () =
      ⟨(), ⟨[], false⟩, [], none⟩ := by
  have hov : (swWrite hOk 2 ⟨[97], false⟩ () [98, 99]).err = some .bufferOverflow := by
    rw [swWrite_open]
    show (swWriteAux hOk 2 2 () [97, 98, 99] []).err = some .bufferOverflow
    rw [swWriteAux_of_none hOk 2 2 () [97, 98, 99] [] (by decide) (by decide),
      if_pos (by norm_num)]
  exact ⟨hov, (write_overflow_clears_backlog hOk 2 ⟨[97], false⟩ () [98, 99] hov).1,
    (write_overflow_clears_backlog hOk 2 ⟨[97], false⟩ () [98, 99] hov).2 Unit hOk ()⟩

/-! ## Claim C5: the 32 KiB bound -/

theorem splitLine_replicate_lf (n : Nat) :
    splitLine (List.replicate n 97 ++ [10]) = some (List.replicate n 97, []) := by
  induction n with
  | zero => rfl
  | succ n ih =>
    rw [List.replicate_succ, List.cons_append]
    simp only [splitLine]
    rw [if_neg (by norm_num), ih]

theorem dropCR_replicate (n : Nat) :
    dropCR (List.replicate n 97) = List.replicate n 97 := by
  cases n with
  | zero => rfl
  | succ n =>
    rw [dropCR, if_neg]
    intro hand
    have hlast : (List.replicate (n + 1) (97 : Nat)).getLast? = some 97 := by
      rw [List.replicate_succ']
      exact List.getLast?_concat _
    rw [hlast] at hand
    exact absurd hand.2 (by norm_num)

/-- Counterexample to C5: a 32 769-byte line whose terminating line feed
arrives within the same `Write` call is emitted to the handler in full —
no `BufferOverflow` — even though it exceeds `MaxMessageLength = 32768`.
The cap only guards the UNTERMINATED backlog. -/
theorem emitted_token_can_exceed_max_message_length :
    (swWrite hOk 32768 ⟨[], false⟩ () (List.replicate 32769 97 ++ [10])).err = none ∧
    (swWrite hOk 32768 ⟨[], false⟩ () (List.replicate 32769 97 ++ [10])).toks =
      [List.replicate 32769 97] ∧
    32768 < (List.replicate 32769 (97 : Nat)).length := by
  have hd : (List.replicate 32769 (97 : Nat) ++ [10]) ≠ [] := by
    intro hcon
    exact absurd (List.append_eq_nil.mp hcon).2 (by decide)
  have step := swWriteAux_of_some hOk 32768 ((List.replicate 32769 (97 : Nat) ++ [10]).length)
    () (List.replicate 32769 97 ++ [10]) (List.replicate 32769 97) [] [] hd
    (splitLine_replicate_lf 32769)
  have key : swWrite hOk 32768 ⟨[], false⟩ () (List.replicate 32769 97 ++ [10]) =
      ⟨(), ⟨[], false⟩, [List.replicate 32769 97],
        (List.replicate 32769 (97 : Nat) ++ [10]).length, none⟩ := by
    rw [swWrite_open, List.nil_append, step, dropCR_replicate,
      if_pos (show (hOk () (List.replicate 32769 97)).2 = true from rfl),
      swWriteAux_nil]
    rfl
  rw [key]
  refine ⟨rfl, rfl, ?_⟩
  rw [List.length_replicate]
  norm_num

/-- C5 (amended): the overflow half of the claim. Whenever the
unterminated remainder of backlog-plus-input exceeds the cap, `Write`
fails with `BufferOverflow` (and returns count 0) — so an undelimited
record can never hold more than `max_buf` bytes across calls; the bound
on EMITTED messages refuted above is what the amendment drops. -/
theorem write_overflow_on_oversized_unterminated_record (maxBuf : Nat) (B data : List Nat)
    (hov : maxBuf < (splitAll (B ++ data)).2.length) :
    (swWrite hOk maxBuf ⟨B, false⟩ () data).err = some .bufferOverflow ∧
    (swWrite hOk maxBuf ⟨B, false⟩ () data).count = 0 := by
  rw [swWrite_open,
    swWriteAux_hOk (B ++ data).length (B ++ data) le_rfl maxBuf data.length [],
    if_neg (by omega)]
  exact ⟨rfl, rfl⟩

/-- Witness for the amended C5 at cap 2, backlog `[97]`, input `[98, 99]`. -/
theorem write_overflow_on_oversized_unterminated_record_witness :
    2 < (splitAll ([97] ++ [98, 99])).2.length ∧
    (swWrite hOk 2 ⟨[97], false⟩ () [98, 99]).err = some .bufferOverflow := by
  have hlt : 2 < (splitAll ([97] ++ [98, 99])).2.length := by
    rw [show ([97] ++ [98, 99] : List Nat) = [97, 98, 99] from rfl,
      splitAll_of_splitLine_none [97, 98, 99] rfl]
    norm_num
  exact ⟨hlt, (write_overflow_on_oversized_unterminated_record 2 [97] [98, 99] hlt).1⟩

/-! ## Claim C7: Close semantics -/

/-- A handler that always reports an error, as the Logger's own
`tokenFunc` does whenever the event channel is full. -/
def hFail : Unit → List Nat → Unit × Bool := fun _ _ => ((), false)

/-- `swClose` on an open writer, unfolded. -/
theorem swClose_open {σ : Type} (h : σ → List Nat → σ × Bool) (B : List Nat) (st : σ) :
    swClose h ⟨B, false⟩ st =
      match (swFlushRun h ⟨B, false⟩ st).err with
      | none => ⟨(swFlushRun h ⟨B, false⟩ st).hs, ⟨[], true⟩,
          (swFlushRun h ⟨B, false⟩ st).toks, none⟩
      | some e => ⟨(swFlushRun h ⟨B, false⟩ st).hs, (swFlushRun h ⟨B, false⟩ st).sw,
          (swFlushRun h ⟨B, false⟩ st).toks, some e⟩ := rfl

/-- Counterexample to C7: with a failing handler and a non-empty
backlog (exactly the situation of a backed-up Logger), `Close`'s
internal flush fails, `Close` returns that error WITHOUT transitioning
to Closed, and a subsequent `Write` on the same instance succeeds
instead of returning `WriterClosedError`. -/
theorem close_failed_flush_leaves_writer_open :
    (swClose hFail ⟨[97], false⟩ ()).err = some .handlerErr ∧
    (swClose hFail ⟨[97], false⟩ ()).sw = ⟨[97], false⟩ ∧
    (swWrite hFail 32768 (swClose hFail ⟨[97], false⟩ ()).sw () []).err = none := by
  have hsw : (swClose hFail ⟨[97], false⟩ ()).sw = ⟨[97], false⟩ := by decide
  refine ⟨by decide, hsw, ?_⟩
  rw [hsw, swWrite_open]
  show (swWriteAux hFail 32768 0 () [97] []).err = none
  rw [swWriteAux_of_none hFail 32768 0 () [97] [] (by decide) (by decide),
    if_neg (by norm_num)]

/-- C7 (amended): when `Close`'s internal flush succeeds — in
particular whenever the handler accepts the final token, or the backlog
is empty — `Close` emits exactly the flush's tokens and permanently
transitions to Closed; and on a closed writer, `Write`, `Flush` and
`Close` (double close) all return `WriterClosedError` and leave the
state unchanged, so the instance never returns to Open. -/
theorem close_transition_and_closed_operations {σ : Type} (h : σ → List Nat → σ × Bool)
    (sw : SWState) (st : σ) (maxBuf : Nat) :
    ((swClose h sw st).err = none →
      (swClose h sw st).sw = ⟨[], true⟩ ∧
      (swClose h sw st).toks = (swFlushRun h sw st).toks) ∧
    (sw.closed = true →
      (∀ data, swWrite h maxBuf sw st data = ⟨st, sw, [], 0, some .writerClosed⟩) ∧
      swFlushRun h sw st = ⟨st, sw, [], some .writerClosed⟩ ∧
      swClose h sw st = ⟨st, sw, [], some .writerClosed⟩) := by
  obtain ⟨B, c⟩ := sw
  cases c
  · constructor
    · intro he
      rw [swClose_open] at he ⊢
      cases herr : (swFlushRun h ⟨B, false⟩ st).err with
      | none => exact ⟨rfl, rfl⟩
      | some e =>
        rw [herr] at he
        simp at he
    · intro hcl
      cases hcl
  · constructor
    · intro he
      simp [swClose] at he
    · intro _
      exact ⟨fun data => rfl, rfl, rfl⟩

/-- Witness for the amended C7: a successful close (never-failing
handler, backlog `[97]`) transitions to Closed, and the closed-state
clauses hold at the closed writer `⟨[], true⟩`. -/
theorem close_transition_and_closed_operations_witness :
    (swClose hOk ⟨[97], false⟩ ()).err = none ∧
    (swClose hOk ⟨[97], false⟩ ()).sw = ⟨[], true⟩ ∧
    swWrite hOk 4 ⟨[], true⟩ () [98] = ⟨(), ⟨[], true⟩, [], 0, some .writerClosed⟩ ∧
    swClose hOk ⟨[], true⟩ () = ⟨(), ⟨[], true⟩, [], some .writerClosed⟩ := by
  have he : (swClose hOk ⟨[97], false⟩ ()).err = none := by decide
  refine ⟨he, ((close_transition_and_closed_operations hOk ⟨[97], false⟩ () 4).1 he).1, ?_, ?_⟩
  · exact ((close_transition_and_closed_operations hOk ⟨[], true⟩ () 4).2 rfl).1 [98]
  · exact ((close_transition_and_closed_operations hOk ⟨[], true⟩ () 4).2 rfl).2.2

/-! ## Claim C3: boundary-insensitive tokenization -/

/-- C3 (amended): for any byte sequence and any split of it across
`Write` calls followed by a `Flush`, provided no call errors, the tokens
handed to the handler are the line-delimited decomposition of the
concatenated input, EXCEPT that a final unterminated record that is
empty after CR-stripping (a lone trailing CR) is skipped by `flush`
rather than emitted as the empty token the decomposition contains; the
two agree whenever that corner does not arise (third conjunct). -/
theorem scannerwriter_boundary_tokenization (maxBuf : Nat)
    (chunks : List (List Nat)) (sw : SWState) (TS : List (List Nat))
    (hrun : runWrites maxBuf ⟨[], false⟩ chunks = (sw, TS, none)) :
    (swFlushRun hOk sw ()).err = none ∧
    TS ++ (swFlushRun hOk sw ()).toks = emittedDecomp chunks.flatten ∧
    (emittedDecomp chunks.flatten = lineDecomp chunks.flatten ∨
      lineDecomp chunks.flatten = emittedDecomp chunks.flatten ++ [[]]) := by
  obtain ⟨hsw, hTS⟩ := runWrites_ok chunks maxBuf [] rfl sw TS hrun
  rw [List.nil_append] at hsw hTS
  subst hsw
  subst hTS
  have hnl : splitLine (splitAll chunks.flatten).2 = none :=
    splitLine_splitAll_rem chunks.flatten.length chunks.flatten le_rfl
  rw [swFlushRun_hOk_open _ hnl]
  refine ⟨rfl, ?_, ?_⟩
  · rw [emittedDecomp]
  · by_cases hr2 : (splitAll chunks.flatten).2 = []
    · left
      rw [emittedDecomp, lineDecomp, hr2]
      simp [dropCR]
    · by_cases hdc : dropCR (splitAll chunks.flatten).2 = []
      · right
        rw [emittedDecomp, lineDecomp, if_neg hr2, if_pos hdc, hdc]
        simp
      · left
        rw [emittedDecomp, lineDecomp, if_neg hr2, if_neg hdc]

/-- Counterexample to C3 as stated: the single chunk `[13]` (a lone
carriage return) produces no token at all — no call errors — while the
line-delimited decomposition of the full input is the one-token
sequence `[[]]` (a `bufio.Scanner` over the whole input emits one empty
token for it): `flush`'s `len(token) > 0` guard drops it. -/
theorem scannerwriter_drops_lone_trailing_cr :
    runWrites 32768 ⟨[], false⟩ [[13]] = (⟨[13], false⟩, [], none) ∧
    swFlushRun hOk ⟨[13], false⟩ () = ⟨(), ⟨[], false⟩, [], none⟩ ∧
    lineDecomp [13] = [[]] ∧
    ([] : List (List Nat)) ≠ [[]] := by
  have h1 : swWrite hOk 32768 ⟨[], false⟩ () [13] = ⟨(), ⟨[13], false⟩, [], 1, none⟩ := by
    rw [swWrite_open]
    show swWriteAux hOk 32768 1 () [13] [] = _
    rw [swWriteAux_of_none hOk 32768 1 () [13] [] (by decide) (by decide),
      if_neg (by norm_num)]
  refine ⟨?_, by decide, ?_, by decide⟩
  · simp only [runWrites, h1]
    simp
  · rw [lineDecomp, splitAll_of_splitLine_none [13] rfl]
    decide

/-- Witness for the amended C3: the input `a LF b` split as
`[[97], [10, 98]]` (a write boundary inside the first line). -/
theorem scannerwriter_boundary_tokenization_witness :
    runWrites 32768 ⟨[], false⟩ [[97], [10, 98]] = (⟨[98], false⟩, [[97]], none) ∧
    [[97]] ++ (swFlushRun hOk ⟨[98], false⟩ ()).toks =
      emittedDecomp [[97], [10, 98]].flatten := by
  have h1 : swWrite hOk 32768 ⟨[], false⟩ () [97] = ⟨(), ⟨[97], false⟩, [], 1, none⟩ := by
    rw [swWrite_open]
    show swWriteAux hOk 32768 1 () [97] [] = _
    rw [swWriteAux_of_none hOk 32768 1 () [97] [] (by decide) (by decide),
      if_neg (by norm_num)]
  have h2 : swWrite hOk 32768 ⟨[97], false⟩ () [10, 98] =
      ⟨(), ⟨[98], false⟩, [[97]], 2, none⟩ := by
    rw [swWrite_open]
    show swWriteAux hOk 32768 2 () [97, 10, 98] [] = _
    have st2 := swWriteAux_of_some hOk 32768 2 () [97, 10, 98] [97] [98] [] (by decide)
      (by decide)
    rw [st2, if_pos (show (hOk () (dropCR [97])).2 = true from rfl),
      swWriteAux_of_none hOk 32768 2 ((hOk () (dropCR [97])).1) [98] ([] ++ [dropCR [97]])
        (by decide) (by decide),
      if_neg (by norm_num)]
    rfl
  have hrun : runWrites 32768 ⟨[], false⟩ [[97], [10, 98]] = (⟨[98], false⟩, [[97]], none) := by
    simp only [runWrites, h1, h2]
    simp
  exact ⟨hrun,
    (scannerwriter_boundary_tokenization 32768 [[97], [10, 98]] ⟨[98], false⟩ [[97]] hrun).2.1⟩

/-! ## Logger input path (claim C2) -/

/-- `MaxMessageLength = 32 << 10` (logger.go), the tokenizer cap chosen
by `NewLogger`. -/
def MaxMessageLength : Nat := 32 * 1024

/-- `EventLogBufferLength = 64 << 10`: the capacity of the buffered
`events` channel. -/
def EventLogBufferLength : Nat := 64 * 1024

/-- The Logger's `tokenFunc` from `NewLogger`: build the envelope for
the token and try a non-blocking send (`select` with `default`) on the
`events` channel. The channel is modelled by its buffered contents; the
send succeeds exactly when the buffer is below capacity (a concurrent
receive is not modelled). On a full channel the event is dumped to
stderr and `ErrStreamBackedUp` is returned — the handler fails. The
JSON serialisation of the envelope (external `encoding/json`) is not
modelled: the queue records the raw token. -/
def loggerHandler (cap : Nat) : List (List Nat) → List Nat → List (List Nat) × Bool :=
  fun q tok => if q.length < cap then (q ++ [tok], true) else (q, false)

/-- Counterexample to C2: with the `events` channel full, writing the
line `a LF` makes `tokenFunc` return `ErrStreamBackedUp`, and
`ScannerWriter.Write` PROPAGATES it: `Logger.Write` returns the
backpressure error with count 0, not success. (In `main`, `io.Copy`
checks that error and stops the input pipeline.) -/
theorem write_returns_backpressure_error_on_full_queue :
    (swWrite (loggerHandler EventLogBufferLength) MaxMessageLength ⟨[], false⟩
        (List.replicate EventLogBufferLength ([] : List Nat)) [97, 10]).err
      = some .handlerErr ∧
    (swWrite (loggerHandler EventLogBufferLength) MaxMessageLength ⟨[], false⟩
        (List.replicate EventLogBufferLength ([] : List Nat)) [97, 10]).count = 0 := by
  have hq : (List.replicate EventLogBufferLength ([] : List Nat)).length
      = EventLogBufferLength := by simp
  have hcond : ¬((loggerHandler EventLogBufferLength
      (List.replicate EventLogBufferLength ([] : List Nat)) (dropCR [97])).2 = true) := by
    simp only [loggerHandler, hq]
    rw [if_neg (by omega)]
    simp
  rw [swWrite_open]
  simp only [List.nil_append]
  have st := swWriteAux_of_some (loggerHandler EventLogBufferLength) MaxMessageLength
    ([97, 10].length) (List.replicate EventLogBufferLength ([] : List Nat)) [97, 10] [97] [] []
    (by decide) (by decide)
  rw [st, if_neg hcond]
  exact ⟨rfl, rfl⟩

/-- C2 (amended): a full-queue drop does NOT leave Write successful —
`ErrStreamBackedUp` propagates synchronously to the immediate caller of
`Write` (count 0) along with `BufferOverflow` and `WriterClosed`.  The
drop is still non-destructive: the writer stays open, the queue keeps
its contents, and once the consumer drains the queue the same write
succeeds — so the pipeline continues only if the caller keeps writing
despite the returned error. -/
theorem full_queue_drop_propagates_error_to_write (q : List (List Nat))
    (hfull : EventLogBufferLength ≤ q.length) :
    (swWrite (loggerHandler EventLogBufferLength) MaxMessageLength ⟨[], false⟩ q [97, 10]).err
      = some .handlerErr ∧
    (swWrite (loggerHandler EventLogBufferLength) MaxMessageLength ⟨[], false⟩ q [97, 10]).count
      = 0 ∧
    (swWrite (loggerHandler EventLogBufferLength) MaxMessageLength ⟨[], false⟩ q [97, 10]).hs
      = q ∧
    (swWrite (loggerHandler EventLogBufferLength) MaxMessageLength ⟨[], false⟩ q [97, 10]).sw
      = ⟨[], false⟩ ∧
    (swWrite (loggerHandler EventLogBufferLength) MaxMessageLength ⟨[], false⟩
        ([] : List (List Nat)) [97, 10]).err = none := by
  have hcond : ¬((loggerHandler EventLogBufferLength q (dropCR [97])).2 = true) := by
    simp only [loggerHandler]
    rw [if_neg (by omega)]
    simp
  have hfst : (loggerHandler EventLogBufferLength q (dropCR [97])).1 = q := by
    simp only [loggerHandler]
    rw [if_neg (by omega)]
  have key2 : (swWrite (loggerHandler EventLogBufferLength) MaxMessageLength ⟨[], false⟩
      ([] : List (List Nat)) [97, 10]).err = none := by
    rw [swWrite_open]
    simp only [List.nil_append]
    have st2 := swWriteAux_of_some (loggerHandler EventLogBufferLength) MaxMessageLength
      ([97, 10].length) ([] : List (List Nat)) [97, 10] [97] [] [] (by decide) (by decide)
    rw [st2, if_pos (by decide), swWriteAux_nil]
  rw [swWrite_open]
  simp only [List.nil_append]
  have st := swWriteAux_of_some (loggerHandler EventLogBufferLength) MaxMessageLength
    ([97, 10].length) q [97, 10] [97] [] [] (by decide) (by decide)
  rw [st, if_neg hcond]
  exact ⟨rfl, rfl, hfst, rfl, key2⟩

/-- Witness for the amended C2 at the concrete full queue
(65 536 queued events). -/
theorem full_queue_drop_propagates_error_to_write_witness :
    EventLogBufferLength ≤ (List.replicate EventLogBufferLength ([] : List Nat)).length ∧
    (swWrite (loggerHandler EventLogBufferLength) MaxMessageLength ⟨[], false⟩
        (List.replicate EventLogBufferLength ([] : List Nat)) [97, 10]).hs
      = List.replicate EventLogBufferLength ([] : List Nat) := by
  have hfull : EventLogBufferLength ≤
      (List.replicate EventLogBufferLength ([] : List Nat)).length := by
    simp
  exact ⟨hfull, (full_queue_drop_propagates_error_to_write
    (List.replicate EventLogBufferLength ([] : List Nat)) hfull).2.2.1⟩

/-! ## Logger.flush batching (claim C1) -/

/-- `cloudwatchlogs.InputLogEvent`: a millisecond timestamp and the
serialized message bytes. -/
structure InputLogEvent where
  timestamp : Int
  message : List Nat
deriving Repr, DecidableEq

/-- `eventLength` (logger.go): serialized message length plus the
26-byte per-event overhead charged by the service. -/
def eventLength (e : InputLogEvent) : Nat :=
  e.message.length + 26

/-- `MaxBatchSize = 1 << 20` from `Logger.flush`. -/
def MaxBatchSize : Nat := 1048576

/-- `MaxBatchCount = 10000` from `Logger.flush`. -/
def MaxBatchCount : Nat := 10000

/-- The inner batch-assembly loop of `Logger.flush`:
`for batchSize < MaxBatchSize && len(batch) < MaxBatchCount && len(logEvents) > 0`
— note both bound tests look at the batch BEFORE the next event is
appended. Returns the batch and the remaining pending events. -/
def buildBatch : List InputLogEvent → Nat → List InputLogEvent →
    List InputLogEvent × List InputLogEvent
  | batch, _, [] => (batch, [])
  | batch, batchSize, e :: rest =>
    if batchSize < MaxBatchSize ∧ batch.length < MaxBatchCount then
      buildBatch (batch ++ [e]) (batchSize + eventLength e) rest
    else (batch, e :: rest)

theorem buildBatch_rest_length_le : ∀ (l batch : List InputLogEvent) (size : Nat),
    (buildBatch batch size l).2.length ≤ l.length := by
  intro l
  induction l with
  | nil => intro batch size; simp [buildBatch]
  | cons e rest ih =>
    intro batch size
    rw [buildBatch]
    by_cases hc : size < MaxBatchSize ∧ batch.length < MaxBatchCount
    · rw [if_pos hc]
      have := ih (batch ++ [e]) (size + eventLength e)
      simp
      omega
    · rw [if_neg hc]

/-- The outer loop of `Logger.flush`: slice batches off the front of
the pending list until it is exhausted. `rate.Ready()` blocks until the
limiter admits the call and then always returns `true` (see
`RateLimiter.Ready`), so the guard `len(logEvents) > 0 && rate.Ready()`
is `len(logEvents) > 0`; timing is not modelled. Submission of each
batch is claim C4's concern; here we collect the batches produced. -/
def flushBatches : List InputLogEvent → List (List InputLogEvent)
  | [] => []
  | e :: rest =>
    (buildBatch [] 0 (e :: rest)).1 :: flushBatches (buildBatch [] 0 (e :: rest)).2
termination_by l => l.length
decreasing_by
  have hstep : buildBatch [] 0 (e :: rest)
      = buildBatch ([] ++ [e]) (0 + eventLength e) rest := by
    rw [buildBatch, if_pos (by exact ⟨by decide, by decide⟩)]
  rw [hstep]
  have := buildBatch_rest_length_le rest ([] ++ [e]) (0 + eventLength e)
  simp only [List.length_cons]
  omega

/-- Total wire size of a batch: the sum of its events' `eventLength`s
(the quantity the service's 1 048 576-byte limit constrains). -/
def batchWireSize (batch : List InputLogEvent) : Nat :=
  (batch.map eventLength).sum

/-- C1 failing input: two events whose wire sizes are 1 048 575 and 27
bytes. Each fits a batch alone; the greedy loop admits the second
because it only checks the size accumulated so far (1 048 575 <
1 048 576), producing one batch of 1 048 602 bytes — OVER the documented
`MaxBatchSize`. The count bound and order preservation are not at
issue; the size bound is violated, so the claim is right and the code
wrong (its own comment states the 1 048 576-byte service limit). -/
theorem flushBatches_nil : flushBatches [] = [] := by
  rw [flushBatches.eq_def]

theorem flushBatches_cons (e : InputLogEvent) (rest : List InputLogEvent) :
    flushBatches (e :: rest) =
      (buildBatch [] 0 (e :: rest)).1 :: flushBatches (buildBatch [] 0 (e :: rest)).2 := by
  rw [flushBatches.eq_def]

/-- C1 evaluation at the failing input (see RESULTS): the two events are
emitted as ONE batch whose wire size 1 048 602 exceeds `MaxBatchSize`. -/
theorem eventLength_mk (t : Int) (m : List Nat) : eventLength ⟨t, m⟩ = m.length + 26 := rfl

theorem flush_batching_exceeds_max_batch_size :
    flushBatches [⟨0, List.replicate 1048549 97⟩, ⟨0, [97]⟩]
      = [[⟨0, List.replicate 1048549 97⟩, ⟨0, [97]⟩]] ∧
    batchWireSize [⟨0, List.replicate 1048549 97⟩, ⟨0, [97]⟩] = 1048602 ∧
    MaxBatchSize < batchWireSize [⟨0, List.replicate 1048549 97⟩, ⟨0, [97]⟩] := by
  have he1 : eventLength ⟨0, List.replicate 1048549 97⟩ = 1048575 := by
    rw [eventLength_mk, List.length_replicate]
  have he2 : eventLength ⟨0, [97]⟩ = 27 := by
    rw [eventLength_mk]
    rfl
  have hc1 : (0 : Nat) < MaxBatchSize ∧ ([] : List InputLogEvent).length < MaxBatchCount :=
    ⟨by decide, by decide⟩
  have hc2 : 0 + 1048575 < MaxBatchSize ∧
      ([] ++ [(⟨0, List.replicate 1048549 97⟩ : InputLogEvent)]).length < MaxBatchCount := by
    constructor
    · rw [MaxBatchSize]
      omega
    · show (1 : Nat) < MaxBatchCount
      decide
  have hb : buildBatch [] 0 [⟨0, List.replicate 1048549 97⟩, ⟨0, [97]⟩]
      = ([⟨0, List.replicate 1048549 97⟩, ⟨0, [97]⟩], []) := by
    rw [buildBatch, if_pos hc1, he1, buildBatch, if_pos hc2, buildBatch]
    rfl
  have hws : batchWireSize [⟨0, List.replicate 1048549 97⟩, ⟨0, [97]⟩] = 1048602 := by
    rw [batchWireSize]
    simp only [List.map_cons, List.map_nil, List.sum_cons, List.sum_nil, he1, he2]
    omega
  refine ⟨?_, hws, ?_⟩
  · rw [flushBatches_cons, hb]
    show ([⟨0, List.replicate 1048549 97⟩, ⟨0, [97]⟩] : List InputLogEvent)
        :: flushBatches [] = _
    rw [flushBatches_nil]
  · rw [hws, MaxBatchSize]
    omega

/-! ## Trier (claim C6) -/

inductive TrierOutcome (ε : Type) where
  /-- the error value of the final attempt (`none` = Go `nil` = success) -/
  | fnResult (e : Option ε)
  /-- the distinct `ErrMaxTries` sentinel -/
  | maxTries
deriving Repr, DecidableEq

/-- `Trier.TryFunc` (trier.go):
`for ; t.Try(); t.Wait() { if err, retry := f(); err == nil || !retry { return err } }`
then `return ErrMaxTries`. `clock k` is `time.Now()` at the k-th `Try`
guard and `expiration` the deadline fixed at construction
(`Try` is `time.Now().Before(t.expiration)`); `f k` is the k-th
attempt's `(error, shouldRetry)`. `Wait`'s jittered, doubling,
10-second-capped sleep only advances the clock, which is abstract here.
`fuel` bounds the unfolding of the unbounded Go loop; `none` means the
loop is still running after `fuel` guards. A `some` result carries the
returned value and the guard index at which the loop returned. -/
def tryFuncAux {ε : Type} (expiration : Nat) (clock : Nat → Nat)
    (f : Nat → Option ε × Bool) : Nat → Nat → Option (TrierOutcome ε × Nat)
  | 0, _ => none
  | fuel + 1, k =>
    if clock k < expiration then
      if (f k).1.isNone || !(f k).2 then some (.fnResult (f k).1, k)
      else tryFuncAux expiration clock f fuel (k + 1)
    else some (.maxTries, k)

theorem tryFuncAux_fnResult {ε : Type} (expiration : Nat) (clock : Nat → Nat)
    (f : Nat → Option ε × Bool) : ∀ (fuel k : Nat) (res : Option ε) (j : Nat),
    tryFuncAux expiration clock f fuel k = some (.fnResult res, j) →
    clock j < expiration ∧ (f j).1 = res ∧ ((f j).1 = none ∨ (f j).2 = false) := by
  intro fuel
  induction fuel with
  | zero => intro k res j h; simp [tryFuncAux] at h
  | succ fuel ih =>
    intro k res j h
    simp only [tryFuncAux] at h
    by_cases hc : clock k < expiration
    · rw [if_pos hc] at h
      by_cases hb : ((f k).1.isNone || !(f k).2) = true
      · rw [if_pos hb] at h
        injection h with h
        injection h with h1 h2
        injection h1 with h1
        subst h2
        subst h1
        refine ⟨hc, rfl, ?_⟩
        rcases Bool.or_eq_true_iff.mp hb with hn | hr
        · exact Or.inl (Option.isNone_iff_eq_none.mp hn)
        · right
          revert hr
          cases hfk : (f k).2 <;> simp
      · rw [if_neg hb] at h
        exact ih (k + 1) res j h
    · rw [if_neg hc] at h
      injection h with h
      injection h with h1 h2
      cases h1

theorem tryFuncAux_maxTries {ε : Type} (expiration : Nat) (clock : Nat → Nat)
    (f : Nat → Option ε × Bool) : ∀ (fuel k j : Nat),
    tryFuncAux expiration clock f fuel k = some (.maxTries, j) →
    expiration ≤ clock j := by
  intro fuel
  induction fuel with
  | zero => intro k j h; simp [tryFuncAux] at h
  | succ fuel ih =>
    intro k j h
    simp only [tryFuncAux] at h
    by_cases hc : clock k < expiration
    · rw [if_pos hc] at h
      by_cases hb : ((f k).1.isNone || !(f k).2) = true
      · rw [if_pos hb] at h
        injection h with h
        injection h with h1 h2
        cases h1
      · rw [if_neg hb] at h
        exact ih (k + 1) j h
    · rw [if_neg hc] at h
      injection h with h
      injection h with h1 h2
      subst h2
      omega

theorem tryFuncAux_expired {ε : Type} (expiration : Nat) (clock : Nat → Nat)
    (f : Nat → Option ε × Bool) (fuel k : Nat) (hk : expiration ≤ clock k)
    (hf : 0 < fuel) :
    tryFuncAux expiration clock f fuel k = some (.maxTries, k) := by
  cases fuel with
  | zero => omega
  | succ fuel =>
    simp only [tryFuncAux]
    rw [if_neg (by omega)]

theorem tryFuncAux_always_retry {ε : Type} (expiration : Nat) (clock : Nat → Nat)
    (f : Nat → Option ε × Bool) (hfail : ∀ n, (f n).1 ≠ none ∧ (f n).2 = true) :
    ∀ (fuel k : Nat) (out : TrierOutcome ε × Nat),
    tryFuncAux expiration clock f fuel k = some out →
    out.1 = .maxTries ∧ expiration ≤ clock out.2 := by
  intro fuel
  induction fuel with
  | zero => intro k out h; simp [tryFuncAux] at h
  | succ fuel ih =>
    intro k out h
    simp only [tryFuncAux] at h
    by_cases hc : clock k < expiration
    · rw [if_pos hc] at h
      have h1 : (f k).1.isNone = false := by
        cases hopt : (f k).1 with
        | none => exact absurd hopt (hfail k).1
        | some v => rfl
      have hb : ((f k).1.isNone || !(f k).2) = false := by
        rw [h1, (hfail k).2]
        rfl
      rw [hb, if_neg Bool.false_ne_true] at h
      exact ih (k + 1) out h
    · rw [if_neg hc] at h
      injection h with h
      subst h
      refine ⟨rfl, ?_⟩
      show expiration ≤ clock k
      omega

/-- C6: `Trier.TryFunc` (i) returns the attempt's own error value —
`none` on success — exactly when an attempt reports `err == nil` or
`shouldRetry == false`, and only while `Try()` still held (before the
deadline); (ii) whenever it returns `ErrMaxTries`, the deadline had
elapsed at the final guard; (iii) once the deadline has elapsed it does
return `ErrMaxTries` immediately; (iv) for an always-failing,
always-retryable attempt function, every return is `ErrMaxTries` and
happens at a guard at or after the deadline — never strictly before it. -/
theorem trier_tryfunc_deadline_semantics {ε : Type} (expiration : Nat)
    (clock : Nat → Nat) (f : Nat → Option ε × Bool) :
    (∀ (fuel k : Nat) (res : Option ε) (j : Nat),
      tryFuncAux expiration clock f fuel k = some (.fnResult res, j) →
      clock j < expiration ∧ (f j).1 = res ∧ ((f j).1 = none ∨ (f j).2 = false)) ∧
    (∀ (fuel k j : Nat),
      tryFuncAux expiration clock f fuel k = some (.maxTries, j) →
      expiration ≤ clock j) ∧
    (∀ (fuel k : Nat), expiration ≤ clock k → 0 < fuel →
      tryFuncAux expiration clock f fuel k = some (.maxTries, k)) ∧
    ((∀ n, (f n).1 ≠ none ∧ (f n).2 = true) →
      ∀ (fuel k : Nat) (out : TrierOutcome ε × Nat),
      tryFuncAux expiration clock f fuel k = some out →
      out.1 = .maxTries ∧ expiration ≤ clock out.2) :=
  ⟨tryFuncAux_fnResult expiration clock f,
   tryFuncAux_maxTries expiration clock f,
   fun fuel k hk hf => tryFuncAux_expired expiration clock f fuel k hk hf,
   fun hfail => tryFuncAux_always_retry expiration clock f hfail⟩

/-- Witness for C6 at a concrete run: deadline 3, identity clock, an
attempt that always fails and always asks to retry; after guards at
times 0, 1, 2 the guard at time 3 fails and `ErrMaxTries` is returned,
at — not before — the deadline. -/
theorem trier_tryfunc_deadline_semantics_witness :
    tryFuncAux 3 (fun n => n) (fun _ => (some (), true)) 10 0 = some (.maxTries, 3) ∧
    3 ≤ (fun n : Nat => n) 3 ∧
    TrierOutcome.maxTries = (TrierOutcome.maxTries : TrierOutcome Unit) := by
  have heq : tryFuncAux 3 (fun n => n) (fun _ => (some (), true)) 10 0
      = some (.maxTries, 3) := by decide
  have h := (trier_tryfunc_deadline_semantics 3 (fun n => n)
    (fun _ => (some (), true))).2.2.2
    (fun n => ⟨by simp, rfl⟩) 10 0 (.maxTries, 3) heq
  exact ⟨heq, h.2, rfl⟩

/-! ## RateLimiter (claim C8) -/

/-- The `chan struct{}` inside `RateLimiter`, by its observable state:
the number of tokens currently buffered, the buffer capacity `n`, and
whether `close(r.s)` has been called. -/
structure RLState where
  slots : Nat
  cap : Nat
  closed : Bool
deriving Repr, DecidableEq

/-- What one `Ready` call (`r.s <- struct{}{}; return true`) does. Go
channel semantics: a send on a closed channel PANICS; a send on a full
buffer blocks (until the background refill task drains — the call has
not returned); otherwise the token is buffered and `Ready` returns
`true`. `true` is the ONLY value `Ready` can ever return normally — its
signature has no error result. -/
inductive ReadyOutcome where
  | returnsTrue
  | blocks
  | panicsSendOnClosed
deriving Repr, DecidableEq

/-- `RateLimiter.Ready`, one step. -/
def rlReady (st : RLState) : RLState × ReadyOutcome :=
  if st.closed then (st, .panicsSendOnClosed)
  else if st.slots < st.cap then ({ st with slots := st.slots + 1 }, .returnsTrue)
  else (st, .blocks)

/-- `RateLimiter.Close`: `close(r.s)`. -/
def rlClose (st : RLState) : RLState :=
  { st with closed := true }

/-- Counterexample to C8 as stated: after `Close`, an admission attempt
does not RETURN an error — it cannot: `Ready` returns only `bool` and
the only value it ever returns is `true`. Instead the send on the
closed channel PANICS (here at the concrete limiter `n = 5` with an
empty buffer). The claim's "returns an error" does not happen. -/
theorem ready_after_close_panics_counterexample :
    rlReady (rlClose ⟨0, 5, false⟩) = (⟨0, 5, true⟩, .panicsSendOnClosed) ∧
    ReadyOutcome.panicsSendOnClosed ≠ .returnsTrue ∧
    (∀ st : RLState, (rlReady st).2 = .returnsTrue → st.closed = false) := by
  refine ⟨by decide, by decide, ?_⟩
  intro st h
  by_cases hc : st.closed = true
  · rw [rlReady, if_pos hc] at h
    cases h
  · exact Bool.not_eq_true st.closed |>.mp hc

/-- C8 (amended): after `Close`, every subsequent admission attempt
panics (send on a closed channel) — it is never admitted and `Ready`
does not return at all, an error value included. Within the Logger the
panic is caught by the consumer loop's `recover`, aborting that flush
cycle. -/
theorem ready_after_close_panics (st₀ : RLState) :
    (rlClose st₀).closed = true ∧
    (∀ st : RLState, st.closed = true → rlReady st = (st, .panicsSendOnClosed)) := by
  refine ⟨rfl, ?_⟩
  intro st hcl
  rw [rlReady, if_pos hcl]

/-- Witness for the amended C8 at the concrete limiter `n = 5`. -/
theorem ready_after_close_panics_witness :
    (rlClose ⟨0, 5, false⟩).closed = true ∧
    rlReady ⟨0, 5, true⟩ = (⟨0, 5, true⟩, .panicsSendOnClosed) := by
  exact ⟨(ready_after_close_panics ⟨0, 5, false⟩).1,
    (ready_after_close_panics ⟨0, 5, false⟩).2 ⟨0, 5, true⟩ rfl⟩

/-! ## Deliverer: Sequence Token management (claim C4)

Message text is `List Char` (Go strings are byte slices; the messages
and tokens involved are ASCII, one byte per char). -/

/-- Outcome of one `PutLogEvents` call as the closure in `Logger.flush`
classifies it: the `awserr.Error` codes it switches on, any other
`awserr.Error`, an `awserr.RequestFailure`, or an unclassified error;
success carries `resp.NextSequenceToken`. -/
inductive PutOutcome where
  | success (nextSequenceToken : List Char)
  | dataAlreadyAccepted
  | resourceNotFound
  | invalidSequenceToken (message : List Char)
  | invalidParameter
  | otherAwsError
  | requestFailure
  | unclassifiedError
deriving Repr, DecidableEq

/-- The two token cells the flush loop mutates: `l.sequenceToken`
(line 253: assigned only from a successful response) and
`input.SequenceToken`, the field the next `PutLogEvents` call for this
batch carries (initialised from `l.sequenceToken` when the batch's
`input` is built, possibly corrected on a conflict). -/
structure DeliverState where
  sequenceToken : Option (List Char)
  inputSequenceToken : Option (List Char)
deriving Repr, DecidableEq

/-- The Go error value handed back to Trier (`none` = nil). -/
inductive AttemptErr where
  /-- an error from the service, returned as-is -/
  | svcError
  /-- the `errors.New("retry")` sentinel of the provisioning branch -/
  | retrySentinel
deriving Repr, DecidableEq

/-- `strings.LastIndex(msg, " ")`: index of the last space byte,
`none` for Go's -1. -/
def lastIndexOfSpace : List Char → Option Nat
  | [] => none
  | c :: rest =>
    match lastIndexOfSpace rest with
    | some i => some (i + 1)
    | none => if c = ' ' then some 0 else none

/-- `unicode.IsSpace` restricted to ASCII (space, tab, line feed,
vertical tab, form feed, carriage return); the non-ASCII White_Space
code points cannot occur in the ASCII error messages and digit tokens
involved here. -/
def isGoSpace (c : Char) : Bool :=
  c.toNat = 32 || c.toNat = 9 || c.toNat = 10 || c.toNat = 11 || c.toNat = 12 || c.toNat = 13

/-- Leading-whitespace trim, the building block of `strings.TrimSpace`. -/
def trimLeftSpace : List Char → List Char
  | [] => []
  | c :: rest => if isGoSpace c then trimLeftSpace rest else c :: rest

/-- `strings.TrimSpace`: drop whitespace from both ends. -/
def trimSpace (l : List Char) : List Char :=
  (trimLeftSpace (trimLeftSpace l).reverse).reverse

/-- One iteration of the closure `Logger.flush` passes to
`Trier.TryFunc`, given the remote outcome of its `PutLogEvents` call:
the new token state, the error handed to Trier and the `shouldRetry`
flag. Side effects (stderr logging, best-effort group/stream creation)
are external to the token state. On success `l.sequenceToken` is set
from the response (line 253) — the only place it is assigned. On
`InvalidSequenceTokenException` the corrected token is parsed from the
message (`strings.LastIndex(msg, " ")`, then `TrimSpace(msg[i:])`) into
`input.SequenceToken`, the field the retried call carries. -/
def attemptStep (s : DeliverState) (r : PutOutcome) :
    DeliverState × Option AttemptErr × Bool :=
  match r with
  | .success nextTok => ({ s with sequenceToken := some nextTok }, none, false)
  | .dataAlreadyAccepted => (s, none, false)
  | .resourceNotFound => (s, some .retrySentinel, true)
  | .invalidSequenceToken msg =>
    match lastIndexOfSpace msg with
    | some i =>
      ({ s with inputSequenceToken := some (trimSpace (msg.drop i)) }, some .svcError, true)
    | none => (s, some .svcError, true)
  | .invalidParameter => (s, some .svcError, false)
  | .otherAwsError => (s, some .svcError, true)
  | .requestFailure => (s, some .svcError, false)
  | .unclassifiedError => (s, some .svcError, false)

theorem lastIndexOfSpace_eq_none (l : List Char) (h : ∀ c ∈ l, c ≠ ' ') :
    lastIndexOfSpace l = none := by
  induction l with
  | nil => rfl
  | cons c rest ih =>
    simp only [lastIndexOfSpace]
    rw [ih (fun x hx => h x (List.mem_cons_of_mem c hx)),
      if_neg (h c (List.mem_cons_self c rest))]

theorem lastIndexOfSpace_append_tok (p T : List Char) (hT : ∀ c ∈ T, c ≠ ' ') :
    lastIndexOfSpace (p ++ ' ' :: T) = some p.length := by
  induction p with
  | nil =>
    simp only [List.nil_append, lastIndexOfSpace]
    rw [lastIndexOfSpace_eq_none T hT]
    simp
  | cons c p ih =>
    simp only [List.cons_append, lastIndexOfSpace]
    have ih2 : lastIndexOfSpace (p.append (' ' :: T)) = some p.length := ih
    rw [ih2]
    simp

theorem trimLeftSpace_no_space (l : List Char) (h : ∀ c ∈ l, isGoSpace c = false) :
    trimLeftSpace l = l := by
  cases l with
  | nil => rfl
  | cons c rest =>
    simp only [trimLeftSpace]
    rw [if_neg (by rw [h c (List.mem_cons_self c rest)]; simp)]

theorem trimSpace_space_tok (T : List Char) (hT : ∀ c ∈ T, isGoSpace c = false) :
    trimSpace (' ' :: T) = T := by
  rw [trimSpace]
  have h1 : trimLeftSpace (' ' :: T) = trimLeftSpace T := by
    simp only [trimLeftSpace]
    rw [if_pos (by decide)]
  rw [h1, trimLeftSpace_no_space T hT,
    trimLeftSpace_no_space T.reverse (fun c hc => hT c (List.mem_reverse.mp hc)),
    List.reverse_reverse]

/-- C4 (amended): (a) for a conflict whose message ends in a token
separated by an ASCII SPACE byte — the code's `strings.LastIndex(msg, " ")`
— the next retried submission for the batch carries exactly that token
as `input.SequenceToken`, the attempt retries, and `l.sequenceToken`
itself is untouched; (b) `l.sequenceToken` is mutated by no outcome but
a confirmed success, which sets it to the response's next token. -/
theorem sequence_token_update_semantics (s : DeliverState) (p T : List Char)
    (hT : ∀ c ∈ T, isGoSpace c = false) :
    ((attemptStep s (.invalidSequenceToken (p ++ ' ' :: T))).1.inputSequenceToken = some T ∧
     (attemptStep s (.invalidSequenceToken (p ++ ' ' :: T))).1.sequenceToken
       = s.sequenceToken ∧
     (attemptStep s (.invalidSequenceToken (p ++ ' ' :: T))).2.2 = true) ∧
    (∀ r : PutOutcome,
      (attemptStep s r).1.sequenceToken =
        match r with
        | .success nextTok => some nextTok
        | _ => s.sequenceToken) := by
  have hTs : ∀ c ∈ T, c ≠ ' ' := by
    intro c hc he
    have := hT c hc
    rw [he] at this
    exact absurd this (by decide)
  constructor
  · simp only [attemptStep]
    rw [lastIndexOfSpace_append_tok p T hTs]
    refine ⟨?_, rfl, rfl⟩
    show some (trimSpace ((p ++ ' ' :: T).drop p.length)) = some T
    rw [List.drop_left, trimSpace_space_tok T hT]
  · intro r
    cases r with
    | success nextTok => rfl
    | invalidSequenceToken msg =>
      simp only [attemptStep]
      cases hl : lastIndexOfSpace msg with
      | some i => rfl
      | none => rfl
    | dataAlreadyAccepted => rfl
    | resourceNotFound => rfl
    | invalidParameter => rfl
    | otherAwsError => rfl
    | requestFailure => rfl
    | unclassifiedError => rfl

/-- Counterexample to C4 as stated: the conflict message `x TAB 1`
ends in the whitespace-separated token string `1`, but contains no
SPACE byte, so `strings.LastIndex(msg, " ")` is -1 and the corrected
token is never taken: the next submission still carries the previous
(here absent) Sequence Token, not `1`. Only a space separator works. -/
theorem sequence_correction_misses_tab_separator :
    attemptStep ⟨none, none⟩ (.invalidSequenceToken ['x', '\t', '1']) =
      (⟨none, none⟩, some .svcError, true) ∧
    (attemptStep ⟨none, none⟩
        (.invalidSequenceToken ['x', '\t', '1'])).1.inputSequenceToken ≠ some ['1'] := by
  have hl : lastIndexOfSpace ['x', '\t', '1'] = none := by decide
  have key : attemptStep ⟨none, none⟩ (.invalidSequenceToken ['x', '\t', '1']) =
      (⟨none, none⟩, some .svcError, true) := by
    simp only [attemptStep]
    rw [hl]
  refine ⟨key, ?_⟩
  rw [key]
  simp

/-- Witness for the amended C4: conflict message `err 12` (space
separator, digit token) updates the retried submission's token to `12`;
and a success response with next token `9` is what updates
`l.sequenceToken`. -/
theorem sequence_token_update_semantics_witness :
    (∀ c ∈ (['1', '2'] : List Char), isGoSpace c = false) ∧
    (attemptStep ⟨none, none⟩
        (.invalidSequenceToken (['e', 'r', 'r'] ++ ' ' :: ['1', '2']))).1.inputSequenceToken
      = some ['1', '2'] ∧
    (attemptStep ⟨none, none⟩ (.success ['9'])).1.sequenceToken = some ['9'] := by
  have hT : ∀ c ∈ (['1', '2'] : List Char), isGoSpace c = false := by decide
  refine ⟨hT, ?_, ?_⟩
  · exact ((sequence_token_update_semantics ⟨none, none⟩ ['e', 'r', 'r'] ['1', '2'] hT).1).1
  · exact (sequence_token_update_semantics ⟨none, none⟩ ['e', 'r', 'r'] ['1', '2'] hT).2
      (.success ['9'])

end CWAgent
